import Mathlib

/-!
Shallow embedding of the slot-reservation core of `src/backend/app.py`
(Flask + SQLite appointment-booking backend).

The SQLite database is modelled as an explicit record-store state
(`DBState`): the `slots` table and the `appointments` table become lists
of records, in insertion order (rows are never deleted by any operation,
and SQLite's autoincrement row ids become `length + 1`).  Each HTTP
handler that touches the store becomes a pure function from the state
(plus the request fields and the current clock value) to a new state and
a response.  ISO timestamps (`datetime.now().isoformat()`) are modelled
by an abstract clock value `now : Nat`; the booking-date string used in
the confirmation code (`datetime.now().strftime` of `%Y%m%d`) is passed
as an abstract `today : String`.
-/

namespace MedBuddy

/-- Decimal digit character, as produced by Python `str` on a nonnegative
integer (the catch-all branch is never reached for digits `< 10`). -/
def digitChar : Nat → Char
  | 0 => '0'
  | 1 => '1'
  | 2 => '2'
  | 3 => '3'
  | 4 => '4'
  | 5 => '5'
  | 6 => '6'
  | 7 => '7'
  | 8 => '8'
  | 9 => '9'
  | _ => '*'

/-- Fuelled big-endian decimal digit list of a natural number; with fuel
above `n` this is the digit string Python `str(n)` produces. -/
def digitsAux : Nat → Nat → List Char
  | 0, _ => []
  | fuel + 1, n =>
    if n < 10 then [digitChar n] else digitsAux fuel (n / 10) ++ [digitChar (n % 10)]

/-- Decimal representation of `n`, as the character list of Python `str(n)`. -/
def natRepr (n : Nat) : List Char := digitsAux (n + 1) n

/-- Python `str.zfill(4)`: left-pad with character zero up to width 4. -/
def zfill4 (s : List Char) : List Char := List.replicate (4 - s.length) '0' ++ s

/-- Confirmation code built at `app.py:131`:
`f"MB-..."` from the booking date and `str(count).zfill(4)`. -/
def mkCode (today : String) (count : Nat) : String :=
  "MB-" ++ today ++ "-" ++ String.mk (zfill4 (natRepr count))

/-- Row of the `slots` table. -/
structure Slot where
  id : Nat
  slot_date : String
  start_time : String
  end_time : String
  is_booked : Bool
deriving DecidableEq, Repr

/-- Row of the `appointments` table.  `meeting_link` and `admin_remarks`
are `NULL` on insert, hence `Option`. -/
structure Appointment where
  id : Nat
  confirmation_code : String
  patient_name : String
  mobile : String
  address : String
  slot_id : Nat
  appointment_date : String
  slot_time : String
  status : String
  meeting_link : Option String
  admin_remarks : Option String
  created_at : Nat
  updated_at : Nat
deriving DecidableEq, Repr

/-- The persistent store: both tables, rows in insertion order. -/
structure DBState where
  slots : List Slot
  appointments : List Appointment
deriving DecidableEq, Repr

/-- Outcome of the `book` handler: HTTP 200 with a confirmation code, or
the HTTP 400 "Slot not available" response. -/
inductive BookResult where
  | success (confirmation_code : String)
  | slotUnavailable
deriving DecidableEq, Repr

/-- The `/api/book` handler (`app.py:116-163`).  It selects the first slot
with the requested id that is not booked; if none, it answers
"Slot not available" without touching the store.  Otherwise it computes
`COUNT(*) + 1` over appointments, builds the confirmation code from the
booking date, inserts the appointment (status RESERVED, both timestamps
`now`, date and time window taken from the slot row) and marks the slot
booked, committing both mutations together. -/
def book (st : DBState) (slot_id : Nat) (patient_name mobile address : String)
    (today : String) (now : Nat) : DBState × BookResult :=
  match st.slots.find? (fun s => s.id == slot_id && s.is_booked == false) with
  | none => (st, BookResult.slotUnavailable)
  | some slot =>
    let count := st.appointments.length + 1
    let code := mkCode today count
    let appt : Appointment :=
      { id := st.appointments.length + 1
        confirmation_code := code
        patient_name := patient_name
        mobile := mobile
        address := address
        slot_id := slot.id
        appointment_date := slot.slot_date
        slot_time := slot.start_time ++ "-" ++ slot.end_time
        status := "RESERVED"
        meeting_link := none
        admin_remarks := none
        created_at := now
        updated_at := now }
    ({ slots := st.slots.map (fun s => if s.id == slot.id then { s with is_booked := true } else s)
       appointments := st.appointments ++ [appt] }, BookResult.success code)

/-- The `/api/cancel/<code>` handler (`app.py:192-212`).  It looks up the
first appointment with the given confirmation code; only when one is
found in status RESERVED does it set status CANCELLED on the rows with
that code and release the slot.  Every path answers success (the
returned `Bool`). -/
def cancel (st : DBState) (code : String) : DBState × Bool :=
  match st.appointments.find? (fun a => a.confirmation_code == code) with
  | some a =>
    if a.status == "RESERVED" then
      ({ appointments := st.appointments.map
           (fun x => if x.confirmation_code == code then { x with status := "CANCELLED" } else x)
         slots := st.slots.map
           (fun s => if s.id == a.slot_id then { s with is_booked := false } else s) }, true)
    else (st, true)
  | none => (st, true)

/-- The `/api/admin/update/<id>` handler (`app.py:333-351`): an
unconditional `UPDATE appointments SET status, meeting_link,
admin_remarks, updated_at WHERE id = ?` with no transition validation. -/
def admin_update (st : DBState) (id : Nat) (status : String)
    (meeting_link admin_remarks : Option String) (now : Nat) : DBState :=
  { st with
    appointments := st.appointments.map
      (fun a => if a.id == id then
          { a with status := status, meeting_link := meeting_link,
                   admin_remarks := admin_remarks, updated_at := now }
        else a) }

/-- The `/api/admin/slots` handler (`app.py:319-330`): inserts a fresh
unbooked slot; the autoincrement id becomes `length + 1`. -/
def add_slot (st : DBState) (slot_date start_time end_time : String) : DBState :=
  { st with
    slots := st.slots ++
      [{ id := st.slots.length + 1, slot_date := slot_date, start_time := start_time,
         end_time := end_time, is_booked := false }] }

/-- Selection predicate of the expiry sweep: status RESERVED and age since
`created_at` strictly above the threshold. -/
def isStale (now threshold : Nat) (a : Appointment) : Bool :=
  a.status == "RESERVED" && a.created_at + threshold < now

/-- Modelled from the spec: `auto_expire_reserved` lives in `scheduler.py`,
which is imported at `app.py:11` and scheduled at `app.py:92` but is not
part of the sources.  Per spec section 4.2, each run selects every
appointment with status RESERVED whose age since `created_at` exceeds
the expiry threshold, transitions it to EXPIRED and releases its slot
(`is_booked := false`). -/
def auto_expire_reserved (st : DBState) (now threshold : Nat) : DBState :=
  { appointments := st.appointments.map
      (fun a => if isStale now threshold a then { a with status := "EXPIRED" } else a)
    slots := st.slots.map
      (fun s => if st.appointments.any (fun a => isStale now threshold a && a.slot_id == s.id)
        then { s with is_booked := false } else s) }

/-- One public operation on the store, with its request fields and the
clock values observed during the call. -/
inductive Op where
  | opBook (slot_id : Nat) (patient_name mobile address today : String) (now : Nat)
  | opCancel (code : String)
  | opUpdate (id : Nat) (status : String) (meeting_link admin_remarks : Option String) (now : Nat)
  | opExpire (now threshold : Nat)
  | opAddSlot (slot_date start_time end_time : String)
deriving DecidableEq, Repr

/-- Effect of one operation on the store (responses discarded). -/
def applyOp (st : DBState) : Op → DBState
  | Op.opBook sid nm mb ad td nw => (book st sid nm mb ad td nw).1
  | Op.opCancel c => (cancel st c).1
  | Op.opUpdate i v l r t => admin_update st i v l r t
  | Op.opExpire nw th => auto_expire_reserved st nw th
  | Op.opAddSlot d s e => add_slot st d s e

/-- The empty store (fresh database). -/
def initState : DBState := { slots := [], appointments := [] }

/-- State after running a sequence of public operations from the empty store. -/
def runOps (ops : List Op) : DBState := ops.foldl applyOp initState

/-- A state is reachable when some sequence of public operations produces it. -/
def Reachable (st : DBState) : Prop := ∃ ops, runOps ops = st

/-- An appointment is active when its status is RESERVED or CONFIRMED. -/
def isActive (a : Appointment) : Bool :=
  a.status == "RESERVED" || a.status == "CONFIRMED"

/-- Number of active appointments referencing a given slot id. -/
def activeCount (apps : List Appointment) (sid : Nat) : Nat :=
  apps.countP (fun a => isActive a && a.slot_id == sid)

/-- Slot rows carry ids `1, 2, …` in insertion order. -/
def SlotIdsOk (st : DBState) : Prop :=
  ∀ i (h : i < st.slots.length), (st.slots.get ⟨i, h⟩).id = i + 1

/-- The appointment inserted as row `i` carries a confirmation code built
from count `i + 1` and some booking date. -/
def CodesOk (st : DBState) : Prop :=
  ∀ i (h : i < st.appointments.length),
    ∃ d, (st.appointments.get ⟨i, h⟩).confirmation_code = mkCode d (i + 1)

/-- Every appointment references a slot row that exists. -/
def SlotRefsOk (st : DBState) : Prop :=
  ∀ a ∈ st.appointments, a.slot_id ≤ st.slots.length

/-- A slot is booked exactly when one active appointment references it,
and an unbooked slot has none. -/
def BookedCount (st : DBState) : Prop :=
  ∀ s ∈ st.slots, activeCount st.appointments s.id = (if s.is_booked then 1 else 0)

/-- Structural invariant maintained by every public operation. -/
def InvBase (st : DBState) : Prop := SlotIdsOk st ∧ CodesOk st ∧ SlotRefsOk st

/-- Operations other than the staff status update. -/
def noUpdate : Op → Bool
  | Op.opUpdate _ _ _ _ _ => false
  | _ => true

/-- Trace producing one free slot (staff adds a slot to the fresh store). -/
def exSlotOps : List Op := [Op.opAddSlot "2024-01-10" "10:00" "10:30"]

/-- Trace producing one slot booked by a RESERVED appointment. -/
def exBookedOps : List Op :=
  [Op.opAddSlot "2024-01-10" "10:00" "10:30",
   Op.opBook 1 "A" "9876543210" "addr" "20240110" 0]

/-- Trace producing a CANCELLED appointment and a released slot. -/
def exCancelledOps : List Op :=
  [Op.opAddSlot "2024-01-10" "10:00" "10:30",
   Op.opBook 1 "A" "9876543210" "addr" "20240110" 0,
   Op.opCancel "MB-20240110-0001"]

/-- Trace in which the staff update handler rewrites a RESERVED
appointment's status without releasing its slot. -/
def exUpdatedOps : List Op :=
  [Op.opAddSlot "2024-01-10" "10:00" "10:30",
   Op.opBook 1 "A" "9876543210" "addr" "20240110" 0,
   Op.opUpdate 1 "CANCELLED" none none 1]

/-- Numeric value of a digit character. -/
def charVal (c : Char) : Nat := c.toNat - 48

/-- Numeric value of a big-endian digit string (leading zeros are ignored). -/
def val (l : List Char) : Nat := l.foldl (fun a c => 10 * a + charVal c) 0

lemma charVal_digitChar (n : Nat) (h : n < 10) : charVal (digitChar n) = n := by
  interval_cases n <;> decide

lemma digitChar_ne_dash (d : Nat) : digitChar d ≠ '-' := by
  unfold digitChar
  split <;> decide

lemma foldl_step_digitsAux (n : Nat) : ∀ fuel a, n < fuel →
    List.foldl (fun acc c => 10 * acc + charVal c) a (digitsAux fuel n) =
      a * 10 ^ (digitsAux fuel n).length + n := by
  induction n using Nat.strong_induction_on with
  | _ n ih =>
    intro fuel a hfuel
    match fuel with
    | 0 => omega
    | fuel + 1 =>
      by_cases h10 : n < 10
      · simp only [digitsAux, if_pos h10, List.foldl_cons, List.foldl_nil, List.length_cons,
          List.length_nil, pow_one, charVal_digitChar n h10]
        ring
      · have hdiv : n / 10 < n := Nat.div_lt_self (by omega) (by omega)
        have hdivfuel : n / 10 < fuel := by omega
        simp only [digitsAux, if_neg h10, List.foldl_append, List.foldl_cons, List.foldl_nil,
          List.length_append, List.length_cons, List.length_nil]
        rw [ih (n / 10) hdiv fuel a hdivfuel]
        rw [charVal_digitChar (n % 10) (Nat.mod_lt n (by omega))]
        have hnm : 10 * (n / 10) + n % 10 = n := Nat.div_add_mod n 10
        rw [pow_succ]
        ring_nf
        omega

lemma foldl_step_replicate_zero : ∀ k,
    List.foldl (fun acc c => 10 * acc + charVal c) 0 (List.replicate k '0') = 0 := by
  intro k
  induction k with
  | zero => rfl
  | succ k ih =>
    simp only [List.replicate, List.foldl_cons]
    have h0 : 10 * 0 + charVal '0' = 0 := by decide
    rw [h0, ih]

lemma val_zfill4_natRepr (n : Nat) : val (zfill4 (natRepr n)) = n := by
  unfold val zfill4
  rw [List.foldl_append, foldl_step_replicate_zero]
  have := foldl_step_digitsAux n (n + 1) 0 (by omega)
  unfold natRepr
  rw [this]
  ring

lemma mem_digitsAux_ne_dash : ∀ fuel n c, c ∈ digitsAux fuel n → c ≠ '-' := by
  intro fuel
  induction fuel with
  | zero => intro n c hc; simp [digitsAux] at hc
  | succ fuel ih =>
    intro n c hc
    by_cases h10 : n < 10
    · simp only [digitsAux, if_pos h10, List.mem_singleton] at hc
      subst hc; exact digitChar_ne_dash n
    · simp only [digitsAux, if_neg h10, List.mem_append, List.mem_singleton] at hc
      rcases hc with hc | hc
      · exact ih (n / 10) c hc
      · subst hc; exact digitChar_ne_dash (n % 10)

lemma mem_zfill4_natRepr_ne_dash (n : Nat) (c : Char) (hc : c ∈ zfill4 (natRepr n)) :
    c ≠ '-' := by
  unfold zfill4 at hc
  rcases List.mem_append.mp hc with h | h
  · have := List.eq_of_mem_replicate h
    subst this; decide
  · exact mem_digitsAux_ne_dash (n + 1) n c h

lemma dash_split : ∀ (xs ys u v : List Char), '-' ∉ xs → '-' ∉ ys →
    xs ++ '-' :: u = ys ++ '-' :: v → xs = ys ∧ u = v := by
  intro xs
  induction xs with
  | nil =>
    intro ys u v _ hy h
    match ys with
    | [] => simpa using h
    | b :: ys =>
      simp only [List.nil_append, List.cons_append, List.cons.injEq] at h
      have hmem : '-' ∈ b :: ys := by rw [h.1]; exact List.mem_cons_self _ _
      exact absurd hmem hy
  | cons a xs ih =>
    intro ys u v hx hy h
    match ys with
    | [] =>
      simp only [List.cons_append, List.nil_append, List.cons.injEq] at h
      have hmem : '-' ∈ a :: xs := by rw [← h.1]; exact List.mem_cons_self _ _
      exact absurd hmem hx
    | b :: ys =>
      simp only [List.cons_append, List.cons.injEq] at h
      have hx2 : '-' ∉ xs := fun hm => hx (List.mem_cons_of_mem a hm)
      have hy2 : '-' ∉ ys := fun hm => hy (List.mem_cons_of_mem b hm)
      obtain ⟨h1, h2⟩ := ih ys u v hx2 hy2 h.2
      exact ⟨by rw [h.1, h1], h2⟩

lemma mkCode_data (d : String) (n : Nat) :
    (mkCode d n).data = 'M' :: 'B' :: '-' :: (d.data ++ '-' :: zfill4 (natRepr n)) := by
  cases d with
  | mk l =>
    show (('M' :: 'B' :: '-' :: l ++ ['-']) ++ zfill4 (natRepr n)) =
      'M' :: 'B' :: '-' :: (l ++ '-' :: zfill4 (natRepr n))
    simp

lemma mkCode_inj_count (d1 d2 : String) (a b : Nat) (h : mkCode d1 a = mkCode d2 b) :
    a = b := by
  have hd := congrArg String.data h
  rw [mkCode_data, mkCode_data] at hd
  simp only [List.cons.injEq, true_and] at hd
  have hrev := congrArg List.reverse hd
  simp only [List.reverse_append, List.reverse_cons] at hrev
  rw [List.append_assoc, List.append_assoc, List.singleton_append, List.singleton_append] at hrev
  have hz1 : '-' ∉ (zfill4 (natRepr a)).reverse := by
    intro hm
    exact mem_zfill4_natRepr_ne_dash a '-' (List.mem_reverse.mp hm) rfl
  have hz2 : '-' ∉ (zfill4 (natRepr b)).reverse := by
    intro hm
    exact mem_zfill4_natRepr_ne_dash b '-' (List.mem_reverse.mp hm) rfl
  obtain ⟨h1, _⟩ := dash_split _ _ _ _ hz1 hz2 hrev
  have hz : zfill4 (natRepr a) = zfill4 (natRepr b) := List.reverse_injective h1
  have := val_zfill4_natRepr a
  rw [hz, val_zfill4_natRepr b] at this
  omega

lemma countP_eq_one_unique {α : Type} (p : α → Bool) :
    ∀ (l : List α), l.countP p = 1 → ∀ x ∈ l, p x → ∀ y ∈ l, p y → x = y := by
  intro l
  induction l with
  | nil => simp
  | cons b t ih =>
    intro h1 x hx hpx y hy hpy
    by_cases hpb : p b
    · have ht0 : t.countP p = 0 := by
        simp only [List.countP_cons, if_pos hpb] at h1; omega
      have hnt : ∀ z ∈ t, ¬ (p z = true) := List.countP_eq_zero.mp ht0
      have hxb : x = b := by
        rcases List.mem_cons.mp hx with h | h
        · exact h
        · exact absurd hpx (hnt x h)
      have hyb : y = b := by
        rcases List.mem_cons.mp hy with h | h
        · exact h
        · exact absurd hpy (hnt y h)
      rw [hxb, hyb]
    · simp only [List.countP_cons, if_neg hpb, Nat.add_zero] at h1
      have hxt : x ∈ t := by
        rcases List.mem_cons.mp hx with h | h
        · exact absurd (h ▸ hpx) hpb
        · exact h
      have hyt : y ∈ t := by
        rcases List.mem_cons.mp hy with h | h
        · exact absurd (h ▸ hpy) hpb
        · exact h
      exact ih h1 x hxt hpx y hyt hpy

lemma find?_eq_some_of_unique {α : Type} (p : α → Bool) :
    ∀ (l : List α) (x : α), x ∈ l → p x → (∀ y ∈ l, p y → y = x) →
      l.find? p = some x := by
  intro l
  induction l with
  | nil => simp
  | cons b t ih =>
    intro x hx hpx huniq
    by_cases hpb : p b
    · rw [List.find?_cons_of_pos _ hpb]
      exact congrArg some (huniq b (List.mem_cons_self _ _) hpb)
    · have hxt : x ∈ t := by
        rcases List.mem_cons.mp hx with h | h
        · exact absurd (h ▸ hpx) hpb
        · exact h
      rw [List.find?_cons_of_neg _ hpb]
      exact ih x hxt hpx (fun y hy hpy => huniq y (List.mem_cons_of_mem _ hy) hpy)

lemma slot_eq_of_id_eq {st : DBState} (h : SlotIdsOk st) {s t : Slot}
    (hs : s ∈ st.slots) (ht : t ∈ st.slots) (hid : s.id = t.id) : s = t := by
  obtain ⟨i, hi⟩ := List.mem_iff_get.mp hs
  obtain ⟨j, hj⟩ := List.mem_iff_get.mp ht
  have his : s.id = i.1 + 1 := by rw [← hi]; exact h i.1 i.2
  have hjt : t.id = j.1 + 1 := by rw [← hj]; exact h j.1 j.2
  have hij : i = j := by
    apply Fin.ext
    omega
  rw [← hi, ← hj, hij]

lemma appt_eq_of_code_eq {st : DBState} (h : CodesOk st) {x y : Appointment}
    (hx : x ∈ st.appointments) (hy : y ∈ st.appointments)
    (hc : x.confirmation_code = y.confirmation_code) : x = y := by
  obtain ⟨i, hi⟩ := List.mem_iff_get.mp hx
  obtain ⟨j, hj⟩ := List.mem_iff_get.mp hy
  obtain ⟨d1, hd1⟩ := h i.1 i.2
  obtain ⟨d2, hd2⟩ := h j.1 j.2
  have h1 : x.confirmation_code = mkCode d1 (i.1 + 1) := by rw [← hi]; exact hd1
  have h2 : y.confirmation_code = mkCode d2 (j.1 + 1) := by rw [← hj]; exact hd2
  have : mkCode d1 (i.1 + 1) = mkCode d2 (j.1 + 1) := by rw [← h1, ← h2, hc]
  have hij : i = j := by
    apply Fin.ext
    have := mkCode_inj_count d1 d2 (i.1 + 1) (j.1 + 1) this
    omega
  rw [← hi, ← hj, hij]

lemma slot_id_le_length {st : DBState} (h : SlotIdsOk st) {s : Slot}
    (hs : s ∈ st.slots) : s.id ≤ st.slots.length := by
  obtain ⟨i, hi⟩ := List.mem_iff_get.mp hs
  have : s.id = i.1 + 1 := by rw [← hi]; exact h i.1 i.2
  have := i.2
  omega

lemma invBase_book (st : DBState) (sid : Nat) (nm mb ad td : String) (nw : Nat)
    (h : InvBase st) : InvBase (book st sid nm mb ad td nw).1 := by
  obtain ⟨hids, hcodes, hrefs⟩ := h
  unfold book
  cases hfind : st.slots.find? (fun s => s.id == sid && s.is_booked == false) with
  | none => exact ⟨hids, hcodes, hrefs⟩
  | some slot =>
    refine ⟨?_, ?_, ?_⟩
    · intro i hi
      simp only [List.length_map] at hi
      simp only [List.get_eq_getElem, List.getElem_map]
      have := hids i hi
      simp only [List.get_eq_getElem] at this
      split
      · simpa using this
      · exact this
    · intro i hi
      simp only [List.length_append, List.length_cons, List.length_nil] at hi
      simp only [List.get_eq_getElem]
      by_cases hlt : i < st.appointments.length
      · rw [List.getElem_append_left hlt]
        have := hcodes i hlt
        simpa only [List.get_eq_getElem] using this
      · have hieq : i = st.appointments.length := by omega
        rw [List.getElem_append_right (by omega)]
        subst hieq
        simp only [Nat.sub_self, List.getElem_cons_zero]
        exact ⟨td, rfl⟩
    · intro a ha
      simp only [List.length_map]
      rcases List.mem_append.mp ha with hmem | hmem
      · exact hrefs a hmem
      · have : a.slot_id = slot.id := by
          rcases List.mem_singleton.mp hmem with rfl
          rfl
        rw [this]
        exact slot_id_le_length hids (List.mem_of_find?_eq_some hfind)

lemma invBase_cancel (st : DBState) (code : String)
    (h : InvBase st) : InvBase (cancel st code).1 := by
  obtain ⟨hids, hcodes, hrefs⟩ := h
  unfold cancel
  cases hfind : st.appointments.find? (fun a => a.confirmation_code == code) with
  | none => exact ⟨hids, hcodes, hrefs⟩
  | some a =>
    by_cases hres : a.status == "RESERVED"
    · simp only [hres, if_true]
      refine ⟨?_, ?_, ?_⟩
      · intro i hi
        simp only [List.length_map] at hi
        simp only [List.get_eq_getElem, List.getElem_map]
        have := hids i hi
        simp only [List.get_eq_getElem] at this
        split
        · simpa using this
        · exact this
      · intro i hi
        simp only [List.length_map] at hi
        simp only [List.get_eq_getElem, List.getElem_map]
        obtain ⟨d, hd⟩ := hcodes i hi
        simp only [List.get_eq_getElem] at hd
        refine ⟨d, ?_⟩
        split
        · simpa using hd
        · exact hd
      · intro x hx
        simp only [List.length_map]
        obtain ⟨y, hy, hyx⟩ := List.mem_map.mp hx
        have : x.slot_id = y.slot_id := by
          rw [← hyx]
          split <;> rfl
        rw [this]
        exact hrefs y hy
    · simp only [hres, if_false]
      exact ⟨hids, hcodes, hrefs⟩

lemma invBase_update (st : DBState) (i : Nat) (v : String) (l r : Option String) (t : Nat)
    (h : InvBase st) : InvBase (admin_update st i v l r t) := by
  obtain ⟨hids, hcodes, hrefs⟩ := h
  refine ⟨hids, ?_, ?_⟩
  · intro j hj
    simp only [admin_update, List.length_map] at hj
    simp only [admin_update, List.get_eq_getElem, List.getElem_map]
    obtain ⟨d, hd⟩ := hcodes j hj
    simp only [List.get_eq_getElem] at hd
    refine ⟨d, ?_⟩
    split
    · simpa using hd
    · exact hd
  · intro x hx
    simp only [admin_update, List.mem_map] at hx
    obtain ⟨y, hy, hyx⟩ := hx
    have : x.slot_id = y.slot_id := by
      rw [← hyx]
      split <;> rfl
    simp only [admin_update]
    rw [this]
    exact hrefs y hy

lemma invBase_expire (st : DBState) (nw th : Nat)
    (h : InvBase st) : InvBase (auto_expire_reserved st nw th) := by
  obtain ⟨hids, hcodes, hrefs⟩ := h
  refine ⟨?_, ?_, ?_⟩
  · intro i hi
    simp only [auto_expire_reserved, List.length_map] at hi
    simp only [auto_expire_reserved, List.get_eq_getElem, List.getElem_map]
    have := hids i hi
    simp only [List.get_eq_getElem] at this
    split
    · simpa using this
    · exact this
  · intro i hi
    simp only [auto_expire_reserved, List.length_map] at hi
    simp only [auto_expire_reserved, List.get_eq_getElem, List.getElem_map]
    obtain ⟨d, hd⟩ := hcodes i hi
    simp only [List.get_eq_getElem] at hd
    refine ⟨d, ?_⟩
    split
    · simpa using hd
    · exact hd
  · intro x hx
    simp only [auto_expire_reserved, List.mem_map] at hx
    obtain ⟨y, hy, hyx⟩ := hx
    have : x.slot_id = y.slot_id := by
      rw [← hyx]
      split <;> rfl
    simp only [auto_expire_reserved, List.length_map]
    rw [this]
    exact hrefs y hy

lemma invBase_addSlot (st : DBState) (d s e : String)
    (h : InvBase st) : InvBase (add_slot st d s e) := by
  obtain ⟨hids, hcodes, hrefs⟩ := h
  refine ⟨?_, hcodes, ?_⟩
  · intro i hi
    simp only [add_slot, List.length_append, List.length_cons, List.length_nil] at hi
    simp only [add_slot, List.get_eq_getElem]
    by_cases hlt : i < st.slots.length
    · rw [List.getElem_append_left hlt]
      have := hids i hlt
      simpa only [List.get_eq_getElem] using this
    · have hieq : i = st.slots.length := by omega
      rw [List.getElem_append_right (by omega)]
      subst hieq
      simp
  · intro x hx
    simp only [add_slot] at hx
    simp only [add_slot, List.length_append, List.length_cons, List.length_nil]
    have := hrefs x hx
    omega

lemma invBase_applyOp (st : DBState) (op : Op)
    (h : InvBase st) : InvBase (applyOp st op) := by
  cases op with
  | opBook sid nm mb ad td nw => exact invBase_book st sid nm mb ad td nw h
  | opCancel c => exact invBase_cancel st c h
  | opUpdate i v l r t => exact invBase_update st i v l r t h
  | opExpire nw th => exact invBase_expire st nw th h
  | opAddSlot d s e => exact invBase_addSlot st d s e h

lemma invBase_init : InvBase initState := by
  refine ⟨?_, ?_, ?_⟩ <;> intro i hi <;> simp [initState] at hi

lemma invBase_runOps (ops : List Op) : InvBase (runOps ops) := by
  unfold runOps
  have : ∀ st, InvBase st → InvBase (ops.foldl applyOp st) := by
    induction ops with
    | nil => intro st h; exact h
    | cons op ops ih =>
      intro st h
      exact ih (applyOp st op) (invBase_applyOp st op h)
  exact this initState invBase_init

lemma invBase_reachable {st : DBState} (h : Reachable st) : InvBase st := by
  obtain ⟨ops, hops⟩ := h
  rw [← hops]
  exact invBase_runOps ops

lemma bookedCount_book (st : DBState) (sid : Nat) (nm mb ad td : String) (nw : Nat)
    (hbase : InvBase st) (hbc : BookedCount st) :
    BookedCount (book st sid nm mb ad td nw).1 := by
  obtain ⟨hids, _, _⟩ := hbase
  unfold book
  cases hfind : st.slots.find? (fun s => s.id == sid && s.is_booked == false) with
  | none => exact hbc
  | some slot =>
    have hp := List.find?_some hfind
    have hmem := List.mem_of_find?_eq_some hfind
    simp only [Bool.and_eq_true, beq_iff_eq] at hp
    obtain ⟨hpid, hpfree⟩ := hp
    intro s' hs'
    obtain ⟨s, hsmem, rfl⟩ := List.mem_map.mp hs'
    unfold activeCount
    rw [List.countP_append]
    by_cases hid : s.id = slot.id
    · have hseq : s = slot := slot_eq_of_id_eq hids hsmem hmem hid
      have hcond : (s.id == slot.id) = true := beq_iff_eq.mpr hid
      simp only [hcond, if_true]
      have hold : activeCount st.appointments s.id = 0 := by
        have := hbc s hsmem
        rw [hseq, hpfree] at this
        rw [hseq]
        simpa using this
      unfold activeCount at hold
      have hone : List.countP
          (fun a => isActive a && a.slot_id == Slot.id { s with is_booked := true })
          [{ id := st.appointments.length + 1,
             confirmation_code := mkCode td (st.appointments.length + 1),
             patient_name := nm, mobile := mb, address := ad,
             slot_id := slot.id, appointment_date := slot.slot_date,
             slot_time := slot.start_time ++ "-" ++ slot.end_time,
             status := "RESERVED", meeting_link := none, admin_remarks := none,
             created_at := nw, updated_at := nw }] = 1 := by
        simp [isActive, hid]
      rw [hone]
      have hsid : Slot.id { s with is_booked := true } = s.id := rfl
      rw [hsid, hold]
    · have hcond : (s.id == slot.id) = false := by
        simp [hid]
      simp only [hcond, Bool.false_eq_true, if_false]
      have hzero : List.countP (fun a => isActive a && a.slot_id == s.id)
          [{ id := st.appointments.length + 1,
             confirmation_code := mkCode td (st.appointments.length + 1),
             patient_name := nm, mobile := mb, address := ad,
             slot_id := slot.id, appointment_date := slot.slot_date,
             slot_time := slot.start_time ++ "-" ++ slot.end_time,
             status := "RESERVED", meeting_link := none, admin_remarks := none,
             created_at := nw, updated_at := nw }] = 0 := by
        have : slot.id ≠ s.id := fun h => hid h.symm
        simp [isActive, this]
      rw [hzero, Nat.add_zero]
      exact hbc s hsmem

lemma bookedCount_cancel (st : DBState) (code : String)
    (hbase : InvBase st) (hbc : BookedCount st) :
    BookedCount (cancel st code).1 := by
  obtain ⟨_, hcodes, _⟩ := hbase
  unfold cancel
  cases hfind : st.appointments.find? (fun a => a.confirmation_code == code) with
  | none => exact hbc
  | some a =>
    by_cases hres : a.status == "RESERVED"
    · simp only [hres, if_true]
      have hamem := List.mem_of_find?_eq_some hfind
      have hacode : a.confirmation_code = code := by
        have := List.find?_some hfind
        simpa using this
      have hastat : a.status = "RESERVED" := by simpa using hres
      intro s' hs'
      obtain ⟨s, hsmem, rfl⟩ := List.mem_map.mp hs'
      unfold activeCount
      rw [List.countP_map]
      by_cases hid : s.id = a.slot_id
      · have hcond : (s.id == a.slot_id) = true := beq_iff_eq.mpr hid
        simp only [hcond, if_true]
        have hbooked : s.is_booked = true ∧
            activeCount st.appointments s.id = 1 := by
          have hc := hbc s hsmem
          have hpos : 0 < activeCount st.appointments s.id := by
            unfold activeCount
            rw [List.countP_pos_iff]
            exact ⟨a, hamem, by simp [isActive, hastat, hid]⟩
          rcases hb : s.is_booked with _ | _
          · rw [hb] at hc; simp at hc; omega
          · rw [hb] at hc; simp at hc; exact ⟨rfl, hc⟩
        have hzero : List.countP ((fun x => isActive x &&
            x.slot_id == Slot.id { s with is_booked := false }) ∘
            (fun x => if x.confirmation_code == code then
              { x with status := "CANCELLED" } else x)) st.appointments = 0 := by
          rw [List.countP_eq_zero]
          intro x hx
          by_cases hxc : x.confirmation_code = code
          · have hxcond : (x.confirmation_code == code) = true := beq_iff_eq.mpr hxc
            simp [Function.comp, hxcond, isActive]
          · have hxcond : (x.confirmation_code == code) = false := by simp [hxc]
            simp only [Function.comp, hxcond, Bool.false_eq_true, if_false]
            intro hpx
            simp only [Bool.and_eq_true, beq_iff_eq] at hpx
            have hxa : x = a := by
              apply countP_eq_one_unique _ st.appointments hbooked.2 x hx _ a hamem _
              · simp only [Bool.and_eq_true, beq_iff_eq]
                exact ⟨hpx.1, by
                  have : Slot.id { s with is_booked := false } = s.id := rfl
                  rw [this] at hpx
                  omega⟩
              · simp only [Bool.and_eq_true, beq_iff_eq]
                exact ⟨by simp [isActive, hastat], hid.symm⟩
            exact hxc (hxa ▸ hacode)
        rw [hzero]
        rfl
      · have hcond : (s.id == a.slot_id) = false := by simp [hid]
        simp only [hcond, Bool.false_eq_true, if_false]
        have hcongr : List.countP ((fun x => isActive x && x.slot_id == s.id) ∘
            (fun x => if x.confirmation_code == code then
              { x with status := "CANCELLED" } else x)) st.appointments =
            List.countP (fun x => isActive x && x.slot_id == s.id) st.appointments := by
          apply List.countP_congr
          intro x hx
          by_cases hxc : x.confirmation_code = code
          · have hxa : x = a := appt_eq_of_code_eq hcodes hx hamem (by rw [hxc, hacode])
            have hxcond : (x.confirmation_code == code) = true := beq_iff_eq.mpr hxc
            subst hxa
            simp only [Function.comp, hxcond, if_true]
            constructor
            · intro h
              simp [isActive] at h
            · intro h
              simp only [Bool.and_eq_true, beq_iff_eq] at h
              exact absurd h.2 (fun he => hid he.symm)
          · have hxcond : (x.confirmation_code == code) = false := by simp [hxc]
            simp [Function.comp, hxcond]
        rw [hcongr]
        exact hbc s hsmem
    · simp only [hres, if_false]
      exact hbc

lemma bookedCount_expire (st : DBState) (nw th : Nat)
    (_hbase : InvBase st) (hbc : BookedCount st) :
    BookedCount (auto_expire_reserved st nw th) := by
  unfold auto_expire_reserved
  intro s' hs'
  obtain ⟨s, hsmem, rfl⟩ := List.mem_map.mp hs'
  unfold activeCount
  rw [List.countP_map]
  by_cases hany : st.appointments.any (fun a => isStale nw th a && a.slot_id == s.id) = true
  · simp only [hany, if_true]
    obtain ⟨a0, ha0mem, ha0⟩ := List.any_eq_true.mp hany
    simp only [Bool.and_eq_true, beq_iff_eq] at ha0
    have ha0stat : a0.status = "RESERVED" := by
      have := ha0.1
      unfold isStale at this
      simp only [Bool.and_eq_true, beq_iff_eq] at this
      exact this.1
    have hbooked : activeCount st.appointments s.id = 1 := by
      have hc := hbc s hsmem
      have hpos : 0 < activeCount st.appointments s.id := by
        unfold activeCount
        rw [List.countP_pos_iff]
        exact ⟨a0, ha0mem, by simp [isActive, ha0stat, ha0.2]⟩
      rcases hb : s.is_booked with _ | _
      · rw [hb] at hc; simp at hc; omega
      · rw [hb] at hc; simpa using hc
    have hzero : List.countP ((fun x => isActive x &&
        x.slot_id == Slot.id { s with is_booked := false }) ∘
        (fun x => if isStale nw th x then { x with status := "EXPIRED" } else x))
        st.appointments = 0 := by
      rw [List.countP_eq_zero]
      intro x hx
      by_cases hxs : isStale nw th x = true
      · simp [Function.comp, hxs, isActive]
      · simp only [Function.comp, hxs, Bool.false_eq_true, if_false]
        intro hpx
        simp only [Bool.and_eq_true, beq_iff_eq] at hpx
        have hxa : x = a0 := by
          apply countP_eq_one_unique _ st.appointments hbooked x hx _ a0 ha0mem _
          · simp only [Bool.and_eq_true, beq_iff_eq]
            exact ⟨hpx.1, hpx.2⟩
          · simp only [Bool.and_eq_true, beq_iff_eq]
            exact ⟨by simp [isActive, ha0stat], ha0.2⟩
        rw [hxa] at hxs
        exact hxs ha0.1
    rw [hzero]
    rfl
  · simp only [hany, Bool.false_eq_true, if_false]
    have hcongr : List.countP ((fun x => isActive x && x.slot_id == s.id) ∘
        (fun x => if isStale nw th x then { x with status := "EXPIRED" } else x))
        st.appointments =
        List.countP (fun x => isActive x && x.slot_id == s.id) st.appointments := by
      apply List.countP_congr
      intro x hx
      by_cases hxs : isStale nw th x = true
      · have hxslot : (x.slot_id == s.id) = false := by
          rcases hslot : x.slot_id == s.id with _ | _
          · rfl
          · exact absurd (List.any_eq_true.mpr ⟨x, hx, by simp [hxs, hslot]⟩) hany
        have hxstat : x.status = "RESERVED" := by
          unfold isStale at hxs
          simp only [Bool.and_eq_true, beq_iff_eq] at hxs
          exact hxs.1
        simp [Function.comp, hxs, hxslot, isActive]
      · simp [Function.comp, hxs]
    rw [hcongr]
    exact hbc s hsmem

lemma bookedCount_addSlot (st : DBState) (d s0 e : String)
    (hbase : InvBase st) (hbc : BookedCount st) :
    BookedCount (add_slot st d s0 e) := by
  obtain ⟨_, _, hrefs⟩ := hbase
  unfold add_slot
  intro s' hs'
  rcases List.mem_append.mp hs' with hmem | hmem
  · exact hbc s' hmem
  · rcases List.mem_singleton.mp hmem with rfl
    simp only [if_false, Bool.false_eq_true]
    unfold activeCount
    rw [List.countP_eq_zero]
    intro x hx
    intro hpx
    simp only [Bool.and_eq_true, beq_iff_eq] at hpx
    have := hrefs x hx
    omega

lemma inv_applyOp_noUpdate (st : DBState) (op : Op) (hop : noUpdate op = true)
    (h1 : InvBase st) (h2 : BookedCount st) :
    InvBase (applyOp st op) ∧ BookedCount (applyOp st op) := by
  cases op with
  | opBook sid nm mb ad td nw =>
    exact ⟨invBase_book st sid nm mb ad td nw h1, bookedCount_book st sid nm mb ad td nw h1 h2⟩
  | opCancel c =>
    exact ⟨invBase_cancel st c h1, bookedCount_cancel st c h1 h2⟩
  | opUpdate i v l r t => simp [noUpdate] at hop
  | opExpire nw th =>
    exact ⟨invBase_expire st nw th h1, bookedCount_expire st nw th h1 h2⟩

  | opAddSlot d s e =>
    exact ⟨invBase_addSlot st d s e h1, bookedCount_addSlot st d s e h1 h2⟩

lemma bookedCount_init : BookedCount initState := by
  intro s hs
  simp [initState] at hs

lemma bookedCount_runOps_noUpdate (ops : List Op)
    (h : ∀ op ∈ ops, noUpdate op = true) : BookedCount (runOps ops) := by
  unfold runOps
  have main : ∀ (l : List Op) (st : DBState), (∀ op ∈ l, noUpdate op = true) →
      InvBase st → BookedCount st →
      InvBase (l.foldl applyOp st) ∧ BookedCount (l.foldl applyOp st) := by
    intro l
    induction l with
    | nil => intro st _ h1 h2; exact ⟨h1, h2⟩
    | cons op l ih =>
      intro st hl h1 h2
      have hop : noUpdate op = true := hl op (List.mem_cons_self _ _)
      have hops : ∀ o ∈ l, noUpdate o = true :=
        fun o ho => hl o (List.mem_cons_of_mem _ ho)
      obtain ⟨h1', h2'⟩ := inv_applyOp_noUpdate st op hop h1 h2
      exact ih (applyOp st op) hops h1' h2'
  exact (main ops initState h invBase_init bookedCount_init).2

lemma find?_slot_of_mem (st : DBState) (hids : SlotIdsOk st) (slot : Slot)
    (hmem : slot ∈ st.slots) (hfree : slot.is_booked = false) :
    st.slots.find? (fun s => s.id == slot.id && s.is_booked == false) = some slot := by
  apply find?_eq_some_of_unique _ _ _ hmem
  · simp [hfree]
  · intro y hy hpy
    simp only [Bool.and_eq_true, beq_iff_eq] at hpy
    exact slot_eq_of_id_eq hids hy hmem hpy.1

lemma mkCode_one (td : String) : mkCode td 1 = "MB-" ++ td ++ "-0001" := by
  unfold mkCode
  rw [String.append_assoc ("MB-" ++ td)]
  have : ("-" : String) ++ String.mk (zfill4 (natRepr 1)) = "-0001" := by decide
  rw [this]

/-- C2: when the requested slot exists and is free, `book` answers success
with the code `MB-<booking date>-<count+1 zero-padded>`, appends exactly
one appointment for that slot with status RESERVED and both timestamps
equal to the current time, and marks the slot booked; the first
appointment ever created gets suffix 0001. -/
theorem book_success_spec (st : DBState) (slot : Slot) (nm mb ad td : String) (nw : Nat)
    (hreach : Reachable st) (hmem : slot ∈ st.slots) (hfree : slot.is_booked = false) :
    (book st slot.id nm mb ad td nw).2 =
      BookResult.success (mkCode td (st.appointments.length + 1)) ∧
    (book st slot.id nm mb ad td nw).1.appointments =
      st.appointments ++
        [{ id := st.appointments.length + 1
           confirmation_code := mkCode td (st.appointments.length + 1)
           patient_name := nm, mobile := mb, address := ad
           slot_id := slot.id, appointment_date := slot.slot_date
           slot_time := slot.start_time ++ "-" ++ slot.end_time
           status := "RESERVED", meeting_link := none, admin_remarks := none
           created_at := nw, updated_at := nw }] ∧
    (book st slot.id nm mb ad td nw).1.slots =
      st.slots.map (fun s => if s.id == slot.id then { s with is_booked := true } else s) ∧
    (st.appointments = [] →
      (book st slot.id nm mb ad td nw).2 = BookResult.success ("MB-" ++ td ++ "-0001")) := by
  obtain ⟨hids, _, _⟩ := invBase_reachable hreach
  unfold book
  rw [find?_slot_of_mem st hids slot hmem hfree]
  refine ⟨rfl, rfl, rfl, ?_⟩
  intro hnil
  rw [hnil]
  simp only [List.length_nil, Nat.zero_add]
  rw [mkCode_one]

/-- Witness for C2 on a concrete store with one free slot. -/
theorem book_success_spec_witness :
    (book (runOps exSlotOps) 1 "A" "9876543210" "addr" "20240110" 5).2 =
      BookResult.success "MB-20240110-0001" := by
  have h := book_success_spec (runOps exSlotOps)
    { id := 1, slot_date := "2024-01-10", start_time := "10:00", end_time := "10:30",
      is_booked := false }
    "A" "9876543210" "addr" "20240110" 5 ⟨exSlotOps, rfl⟩ (by decide) rfl
  have h4 := h.2.2.2 (by decide)
  rw [h4]
  decide

/-- C3: when no free slot with the requested id exists (unknown id or
already booked), `book` reports SlotUnavailable and returns the store
unchanged. -/
theorem book_unavailable_spec (st : DBState) (sid : Nat) (nm mb ad td : String) (nw : Nat)
    (h : ∀ s ∈ st.slots, s.id = sid → s.is_booked = true) :
    book st sid nm mb ad td nw = (st, BookResult.slotUnavailable) := by
  unfold book
  have hnone : st.slots.find? (fun s => s.id == sid && s.is_booked == false) = none := by
    rw [List.find?_eq_none]
    intro x hx hpx
    simp only [Bool.and_eq_true, beq_iff_eq] at hpx
    rw [h x hx hpx.1] at hpx
    exact absurd hpx.2 (by decide)
  rw [hnone]

/-- Witness for C3 on a concrete store whose only slot is booked. -/
theorem book_unavailable_spec_witness :
    book (runOps exBookedOps) 1 "B" "9" "a" "20240111" 7 =
      (runOps exBookedOps, BookResult.slotUnavailable) :=
  book_unavailable_spec (runOps exBookedOps) 1 "B" "9" "a" "20240111" 7 (by decide)

/-- C10: a successful booking stores the slot's own date as
`appointment_date` (not the booking date in the code) and the
concatenation start-hyphen-end as `slot_time`. -/
theorem book_slot_fields (st : DBState) (slot : Slot) (nm mb ad td : String) (nw : Nat)
    (hreach : Reachable st) (hmem : slot ∈ st.slots) (hfree : slot.is_booked = false) :
    ∃ c, (book st slot.id nm mb ad td nw).2 = BookResult.success c ∧
      ∃ a ∈ (book st slot.id nm mb ad td nw).1.appointments,
        a.confirmation_code = c ∧
        a.appointment_date = slot.slot_date ∧
        a.slot_time = slot.start_time ++ "-" ++ slot.end_time := by
  obtain ⟨hids, _, _⟩ := invBase_reachable hreach
  unfold book
  rw [find?_slot_of_mem st hids slot hmem hfree]
  refine ⟨mkCode td (st.appointments.length + 1), rfl, ?_⟩
  refine ⟨_, List.mem_append_right _ (List.mem_singleton.mpr rfl), rfl, rfl, rfl⟩

/-- Witness for C10 on a concrete store with one free slot. -/
theorem book_slot_fields_witness :
    ∃ c, (book (runOps exSlotOps) 1 "A" "9876543210" "addr" "20240110" 5).2 =
        BookResult.success c ∧
      ∃ a ∈ (book (runOps exSlotOps) 1 "A" "9876543210" "addr" "20240110" 5).1.appointments,
        a.confirmation_code = c ∧
        a.appointment_date = "2024-01-10" ∧
        a.slot_time = "10:00" ++ "-" ++ "10:30" :=
  book_slot_fields (runOps exSlotOps)
    { id := 1, slot_date := "2024-01-10", start_time := "10:00", end_time := "10:30",
      is_booked := false }
    "A" "9876543210" "addr" "20240110" 5 ⟨exSlotOps, rfl⟩ (by decide) rfl

/-- C1 counterexample: the claimed invariant (`is_booked` iff exactly one
active appointment) fails on a reachable state, because the staff update
handler overwrites an appointment's status without releasing the slot:
after add-slot, book, and an admin update to CANCELLED, the slot is still
booked while no active appointment references it. -/
theorem slot_flag_claim_cex :
    ¬ (∀ st : DBState, Reachable st → ∀ s ∈ st.slots,
        (s.is_booked = true ↔ activeCount st.appointments s.id = 1)) := by
  intro h
  have hreach : Reachable (runOps exUpdatedOps) := ⟨exUpdatedOps, rfl⟩
  have hmem : (Slot.mk 1 "2024-01-10" "10:00" "10:30" true) ∈ (runOps exUpdatedOps).slots := by
    decide
  have hiff := h (runOps exUpdatedOps) hreach _ hmem
  exact absurd (hiff.mp rfl) (by decide)

/-- C1 amended: for every state reached by a sequence of `book`, `cancel`,
expiry sweeps and `add_slot` (no staff status update), a slot is booked
iff exactly one appointment with status RESERVED or CONFIRMED references
it. -/
theorem slot_flag_invariant_no_update (ops : List Op)
    (h : ∀ op ∈ ops, noUpdate op = true) :
    ∀ s ∈ (runOps ops).slots,
      (s.is_booked = true ↔ activeCount (runOps ops).appointments s.id = 1) := by
  intro s hs
  have hbc := bookedCount_runOps_noUpdate ops h s hs
  constructor
  · intro hb
    rw [hb] at hbc
    simpa using hbc
  · intro hc
    rcases hb : s.is_booked with _ | _
    · rw [hb] at hbc
      simp at hbc
      omega
    · rfl

/-- Witness for the amended C1 on a concrete trace without staff updates. -/
theorem slot_flag_invariant_no_update_witness :
    activeCount (runOps exBookedOps).appointments 1 = 1 := by
  have h := slot_flag_invariant_no_update exBookedOps (by decide)
    { id := 1, slot_date := "2024-01-10", start_time := "10:00", end_time := "10:30",
      is_booked := true } (by decide)
  exact h.mp rfl

/-- C5: in every reachable state the confirmation codes of the
appointments (which are never deleted, so these are all appointments ever
created) are pairwise distinct. -/
theorem confirmation_codes_unique (st : DBState) (hreach : Reachable st) :
    (st.appointments.map (fun a => a.confirmation_code)).Nodup := by
  obtain ⟨_, hcodes, _⟩ := invBase_reachable hreach
  rw [List.nodup_iff_injective_get]
  intro i j hij
  have hi := i.2
  have hj := j.2
  simp only [List.length_map] at hi hj
  have hgi : (st.appointments.map (fun a => a.confirmation_code)).get i =
      (st.appointments.get ⟨i.1, hi⟩).confirmation_code := by
    simp [List.get_eq_getElem]
  have hgj : (st.appointments.map (fun a => a.confirmation_code)).get j =
      (st.appointments.get ⟨j.1, hj⟩).confirmation_code := by
    simp [List.get_eq_getElem]
  rw [hgi, hgj] at hij
  obtain ⟨d1, hd1⟩ := hcodes i.1 hi
  obtain ⟨d2, hd2⟩ := hcodes j.1 hj
  rw [hd1, hd2] at hij
  have := mkCode_inj_count d1 d2 (i.1 + 1) (j.1 + 1) hij
  exact Fin.ext (by omega)

/-- Witness for C5 on a concrete reachable state with two appointments. -/
theorem confirmation_codes_unique_witness :
    ((runOps (exCancelledOps ++ [Op.opBook 1 "B" "111" "a2" "20240111" 2])).appointments.map
      (fun a => a.confirmation_code)).Nodup :=
  confirmation_codes_unique
    (runOps (exCancelledOps ++ [Op.opBook 1 "B" "111" "a2" "20240111" 2]))
    ⟨exCancelledOps ++ [Op.opBook 1 "B" "111" "a2" "20240111" 2], rfl⟩

lemma cancel_code_preserved (code : String) (x : Appointment) :
    Appointment.confirmation_code
      (if x.confirmation_code == code then { x with status := "CANCELLED" } else x) =
      x.confirmation_code := by
  split <;> rfl

lemma cancel_of_none (st : DBState) (code : String)
    (hfind : st.appointments.find? (fun a => a.confirmation_code == code) = none) :
    cancel st code = (st, true) := by
  unfold cancel
  rw [hfind]

lemma cancel_of_not_reserved (st : DBState) (code : String) (a : Appointment)
    (hfind : st.appointments.find? (fun x => x.confirmation_code == code) = some a)
    (hstat : ¬ a.status = "RESERVED") :
    cancel st code = (st, true) := by
  unfold cancel
  simp only [hfind]
  rw [if_neg (by simpa using hstat)]

lemma cancel_of_reserved (st : DBState) (code : String) (a : Appointment)
    (hfind : st.appointments.find? (fun x => x.confirmation_code == code) = some a)
    (hstat : a.status = "RESERVED") :
    cancel st code =
      ({ appointments := st.appointments.map
           (fun x => if x.confirmation_code == code then { x with status := "CANCELLED" } else x)
         slots := st.slots.map
           (fun s => if s.id == a.slot_id then { s with is_booked := false } else s) }, true) := by
  unfold cancel
  simp only [hfind]
  rw [if_pos (by simpa using hstat)]

lemma cancel_find?_after (st : DBState) (code : String) (a : Appointment)
    (hfind : st.appointments.find? (fun x => x.confirmation_code == code) = some a) :
    (st.appointments.map
      (fun x => if x.confirmation_code == code then { x with status := "CANCELLED" } else x)).find?
      (fun x => x.confirmation_code == code) = some { a with status := "CANCELLED" } := by
  have hacode : a.confirmation_code = code := by
    simpa using List.find?_some hfind
  have hpf : (fun x => Appointment.confirmation_code x == code) ∘
      (fun x => if x.confirmation_code == code then
        { x with status := "CANCELLED" } else x) =
      (fun x => x.confirmation_code == code) := by
    funext x
    by_cases hc : x.confirmation_code = code
    · simp [Function.comp, hc]
    · simp [Function.comp, hc]
  rw [List.find?_map, hpf, hfind]
  simp [Option.map, hacode]

/-- C4: `cancel` always reports success; it is a no-op when no appointment
carries the code or the first one found is not RESERVED; when it is
RESERVED, the rows with that code become CANCELLED and the slot is
released; and cancelling twice equals cancelling once. -/
theorem cancel_spec (st : DBState) (code : String) :
    (cancel st code).2 = true ∧
    (st.appointments.find? (fun a => a.confirmation_code == code) = none →
      (cancel st code).1 = st) ∧
    (∀ a, st.appointments.find? (fun x => x.confirmation_code == code) = some a →
      a.status ≠ "RESERVED" → (cancel st code).1 = st) ∧
    (∀ a, st.appointments.find? (fun x => x.confirmation_code == code) = some a →
      a.status = "RESERVED" →
      (cancel st code).1.appointments = st.appointments.map
        (fun x => if x.confirmation_code == code then { x with status := "CANCELLED" } else x) ∧
      (cancel st code).1.slots = st.slots.map
        (fun s => if s.id == a.slot_id then { s with is_booked := false } else s)) ∧
    (cancel (cancel st code).1 code).1 = (cancel st code).1 := by
  refine ⟨?_, ?_, ?_, ?_, ?_⟩
  · cases hfind : st.appointments.find? (fun a => a.confirmation_code == code) with
    | none => rw [cancel_of_none st code hfind]
    | some a =>
      by_cases hstat : a.status = "RESERVED"
      · rw [cancel_of_reserved st code a hfind hstat]
      · rw [cancel_of_not_reserved st code a hfind hstat]
  · intro hfind
    rw [cancel_of_none st code hfind]
  · intro a hfind hstat
    rw [cancel_of_not_reserved st code a hfind hstat]
  · intro a hfind hstat
    rw [cancel_of_reserved st code a hfind hstat]
    exact ⟨rfl, rfl⟩
  · cases hfind : st.appointments.find? (fun a => a.confirmation_code == code) with
    | none => rw [cancel_of_none st code hfind, cancel_of_none st code hfind]
    | some a =>
      by_cases hstat : a.status = "RESERVED"
      · rw [cancel_of_reserved st code a hfind hstat]
        have h2 := cancel_find?_after st code a hfind
        have hns : ¬ Appointment.status { a with status := "CANCELLED" } = "RESERVED" := by
          intro h
          have h2c : ("CANCELLED" : String) = "RESERVED" := h
          exact absurd h2c (by decide)
        rw [cancel_of_not_reserved _ code _ h2 hns]
      · rw [cancel_of_not_reserved st code a hfind hstat,
          cancel_of_not_reserved st code a hfind hstat]

/-- Witness for C4 on a concrete RESERVED appointment: its slot row is
released and cancelling again is a no-op. -/
theorem cancel_spec_witness :
    (cancel (runOps exBookedOps) "MB-20240110-0001").1.slots =
      (runOps exBookedOps).slots.map
        (fun s => if s.id == (1 : Nat) then { s with is_booked := false } else s) ∧
    (cancel (cancel (runOps exBookedOps) "MB-20240110-0001").1 "MB-20240110-0001").1 =
      (cancel (runOps exBookedOps) "MB-20240110-0001").1 := by
  refine ⟨?_, (cancel_spec (runOps exBookedOps) "MB-20240110-0001").2.2.2.2⟩
  have h := (cancel_spec (runOps exBookedOps) "MB-20240110-0001").2.2.2.1
    (Appointment.mk 1 "MB-20240110-0001" "A" "9876543210" "addr" 1 "2024-01-10"
      "10:00-10:30" "RESERVED" none none 0 0)
    (by decide) rfl
  exact h.2

/-- C6: the staff update handler overwrites status, meeting link and
remarks of every appointment row with the given id and stamps
`updated_at`, accepting any status string (no transition validation);
every other field, every other appointment and the slots table are
unchanged. -/
theorem admin_update_spec (st : DBState) (i : Nat) (v : String)
    (l r : Option String) (t : Nat) :
    (admin_update st i v l r t).slots = st.slots ∧
    (admin_update st i v l r t).appointments.length = st.appointments.length ∧
    ∀ j (h1 : j < st.appointments.length)
      (h2 : j < (admin_update st i v l r t).appointments.length),
      ((st.appointments.get ⟨j, h1⟩).id = i →
        (admin_update st i v l r t).appointments.get ⟨j, h2⟩ =
          { st.appointments.get ⟨j, h1⟩ with
            status := v, meeting_link := l, admin_remarks := r, updated_at := t }) ∧
      ((st.appointments.get ⟨j, h1⟩).id ≠ i →
        (admin_update st i v l r t).appointments.get ⟨j, h2⟩ =
          st.appointments.get ⟨j, h1⟩) := by
  refine ⟨rfl, by simp [admin_update], ?_⟩
  intro j h1 h2
  constructor
  · intro hid
    simp only [admin_update, List.get_eq_getElem, List.getElem_map]
    rw [if_pos (by simpa using hid)]
  · intro hid
    simp only [admin_update, List.get_eq_getElem, List.getElem_map]
    rw [if_neg (by simpa using hid)]

/-- Witness for C6: the update handler moves a CANCELLED appointment back
to RESERVED (a transition out of a terminal state) without complaint. -/
theorem admin_update_spec_witness :
    (admin_update (runOps exCancelledOps) 1 "RESERVED" (some "L") (some "R") 9).appointments.get
        ⟨0, by decide⟩ =
      { (runOps exCancelledOps).appointments.get ⟨0, by decide⟩ with
        status := "RESERVED", meeting_link := some "L", admin_remarks := some "R",
        updated_at := 9 } :=
  ((admin_update_spec (runOps exCancelledOps) 1 "RESERVED" (some "L") (some "R") 9).2.2
    0 (by decide) (by decide)).1 (by decide)

/-- C9 counterexample: the claim that malformed input (empty patient
fields) is rejected with a validation error before any transaction and
leaves the store unchanged is false: on a store with a free slot, `book`
with empty patient_name, mobile and address succeeds and mutates the
store. -/
theorem book_validation_claim_cex :
    ¬ (∀ (st : DBState) (sid : Nat) (td : String) (nw : Nat),
        (book st sid "" "" "" td nw).1 = st ∧
        ∀ c, (book st sid "" "" "" td nw).2 ≠ BookResult.success c) := by
  intro h
  have hw := h (runOps exSlotOps) 1 "20240110" 5
  exact hw.2 "MB-20240110-0001" (by decide)

/-- C9 amended: `book` performs no validation of the patient fields: it
succeeds exactly when a free slot with the requested id exists, and with
empty patient_name, mobile and address it inserts the appointment with
those empty values verbatim. -/
theorem book_no_validation (st : DBState) (sid : Nat) (td : String) (nw : Nat) :
    ((book st sid "" "" "" td nw).2 ≠ BookResult.slotUnavailable ↔
      ∃ s ∈ st.slots, s.id = sid ∧ s.is_booked = false) ∧
    (∀ s ∈ st.slots, s.id = sid → s.is_booked = false →
      ∃ a ∈ (book st sid "" "" "" td nw).1.appointments,
        a.patient_name = "" ∧ a.mobile = "" ∧ a.address = "" ∧ a.status = "RESERVED") := by
  unfold book
  cases hfind : st.slots.find? (fun s => s.id == sid && s.is_booked == false) with
  | none =>
    have hnone := List.find?_eq_none.mp hfind
    constructor
    · constructor
      · intro hne
        exact absurd rfl hne
      · intro ⟨s, hs, hsid, hfree⟩
        exact absurd (by simp [hsid, hfree]) (hnone s hs)
    · intro s hs hsid hfree
      exact absurd (by simp [hsid, hfree]) (hnone s hs)
  | some slot =>
    constructor
    · constructor
      · intro _
        have hp := List.find?_some hfind
        simp only [Bool.and_eq_true, beq_iff_eq] at hp
        exact ⟨slot, List.mem_of_find?_eq_some hfind, hp.1, by simpa using hp.2⟩
      · intro _ heq
        exact BookResult.noConfusion heq
    · intro s hs hsid hfree
      exact ⟨_, List.mem_append_right _ (List.mem_singleton.mpr rfl), rfl, rfl, rfl, rfl⟩

/-- Witness for the amended C9 on a concrete store with one free slot. -/
theorem book_no_validation_witness :
    ∃ a ∈ (book (runOps exSlotOps) 1 "" "" "" "20240110" 5).1.appointments,
      a.patient_name = "" ∧ a.mobile = "" ∧ a.address = "" ∧ a.status = "RESERVED" :=
  (book_no_validation (runOps exSlotOps) 1 "20240110" 5).2
    (Slot.mk 1 "2024-01-10" "10:00" "10:30" false) (by decide) rfl rfl

lemma expire_no_stale_left (st : DBState) (nw th : Nat) :
    ∀ x ∈ (auto_expire_reserved st nw th).appointments, isStale nw th x = false := by
  intro x hx
  have hER : (("EXPIRED" : String) == "RESERVED") = false := by decide
  obtain ⟨y, hy, hyx⟩ := List.mem_map.mp hx
  cases hys : isStale nw th y with
  | false =>
    rw [← hyx, if_neg (by simp [hys])]
    exact hys
  | true =>
    rw [← hyx, if_pos (by simp [hys])]
    simp [isStale, hER]

/-- C7 (spec-modelled): one run of the expiry sweep turns every RESERVED
appointment older than the threshold into EXPIRED and releases its slot,
leaves every RESERVED appointment within the threshold untouched, and a
second run immediately after changes nothing. -/
theorem auto_expire_spec (st : DBState) (nw th : Nat) :
    (∀ j (h1 : j < st.appointments.length)
        (h2 : j < (auto_expire_reserved st nw th).appointments.length),
      ((st.appointments.get ⟨j, h1⟩).status = "RESERVED" →
        (st.appointments.get ⟨j, h1⟩).created_at + th < nw →
        (auto_expire_reserved st nw th).appointments.get ⟨j, h2⟩ =
          { st.appointments.get ⟨j, h1⟩ with status := "EXPIRED" }) ∧
      ((st.appointments.get ⟨j, h1⟩).status = "RESERVED" →
        ¬ (st.appointments.get ⟨j, h1⟩).created_at + th < nw →
        (auto_expire_reserved st nw th).appointments.get ⟨j, h2⟩ =
          st.appointments.get ⟨j, h1⟩)) ∧
    (∀ j (h1 : j < st.slots.length)
        (h2 : j < (auto_expire_reserved st nw th).slots.length),
      (∃ a ∈ st.appointments, isStale nw th a = true ∧
          a.slot_id = (st.slots.get ⟨j, h1⟩).id) →
        (auto_expire_reserved st nw th).slots.get ⟨j, h2⟩ =
          { st.slots.get ⟨j, h1⟩ with is_booked := false }) ∧
    auto_expire_reserved (auto_expire_reserved st nw th) nw th =
      auto_expire_reserved st nw th := by
  refine ⟨?_, ?_, ?_⟩
  · intro j h1 h2
    constructor
    · intro hstat hlt
      simp only [List.get_eq_getElem] at hstat hlt
      simp only [auto_expire_reserved, List.get_eq_getElem, List.getElem_map]
      rw [if_pos (by simp [isStale, hstat, hlt])]
    · intro hstat hlt
      simp only [List.get_eq_getElem] at hstat hlt
      simp only [auto_expire_reserved, List.get_eq_getElem, List.getElem_map]
      rw [if_neg (by simp [isStale, hstat]; omega)]
  · intro j h1 h2 hex
    obtain ⟨a, ha, hstale, hsid⟩ := hex
    simp only [auto_expire_reserved, List.get_eq_getElem, List.getElem_map]
    rw [if_pos (List.any_eq_true.mpr ⟨a, ha, by simp [hstale, hsid]⟩)]
  · have happ := expire_no_stale_left st nw th
    have h1 : (auto_expire_reserved st nw th).appointments.map
        (fun a => if isStale nw th a then { a with status := "EXPIRED" } else a) =
        (auto_expire_reserved st nw th).appointments := by
      have hc := List.map_congr_left
        (l := (auto_expire_reserved st nw th).appointments)
        (f := fun a => if isStale nw th a then { a with status := "EXPIRED" } else a)
        (g := fun a => a)
        (fun x hx => by simp [happ x hx])
      rw [hc, List.map_id']
    have h2 : (auto_expire_reserved st nw th).slots.map
        (fun s => if (auto_expire_reserved st nw th).appointments.any
            (fun a => isStale nw th a && a.slot_id == s.id)
          then { s with is_booked := false } else s) =
        (auto_expire_reserved st nw th).slots := by
      have hc := List.map_congr_left
        (l := (auto_expire_reserved st nw th).slots)
        (f := fun s => if (auto_expire_reserved st nw th).appointments.any
            (fun a => isStale nw th a && a.slot_id == s.id)
          then { s with is_booked := false } else s)
        (g := fun s => s)
        (fun s _ => by
          have hanyf : (auto_expire_reserved st nw th).appointments.any
              (fun a => isStale nw th a && a.slot_id == s.id) = false := by
            rw [Bool.eq_false_iff]
            intro hany
            obtain ⟨a, ha, hpa⟩ := List.any_eq_true.mp hany
            simp only [Bool.and_eq_true] at hpa
            exact absurd hpa.1 (by simp [happ a ha])
          simp [hanyf])
      rw [hc, List.map_id']
    have hrfl : auto_expire_reserved (auto_expire_reserved st nw th) nw th =
        DBState.mk
          ((auto_expire_reserved st nw th).slots.map
            (fun s => if (auto_expire_reserved st nw th).appointments.any
                (fun a => isStale nw th a && a.slot_id == s.id)
              then { s with is_booked := false } else s))
          ((auto_expire_reserved st nw th).appointments.map
            (fun a => if isStale nw th a then { a with status := "EXPIRED" } else a)) := rfl
    rw [hrfl, h1, h2]

/-- Witness for C7: a reservation created at time 0 with threshold 30 is
expired by a sweep at time 31, and a second sweep changes nothing. -/
theorem auto_expire_spec_witness :
    (auto_expire_reserved (runOps exBookedOps) 31 30).appointments.get ⟨0, by decide⟩ =
      { (runOps exBookedOps).appointments.get ⟨0, by decide⟩ with status := "EXPIRED" } ∧
    auto_expire_reserved (auto_expire_reserved (runOps exBookedOps) 31 30) 31 30 =
      auto_expire_reserved (runOps exBookedOps) 31 30 :=
  ⟨((auto_expire_spec (runOps exBookedOps) 31 30).1 0 (by decide) (by decide)).1
      (by decide) (by decide),
    (auto_expire_spec (runOps exBookedOps) 31 30).2.2⟩

end MedBuddy
